import Mathlib

/-!
Verification of the genomic-region annotator (`GenomicRegionAnnotator`,
`Annotator.py`) against its design specification.  The Python code is embedded
shallowly: reference files are lists of tab-split lines, pandas tables become
association lists, and the pybedtools intersection primitive is modelled by
its documented semantics (a pair is reported iff the two intervals share at
least one base).  All machine work on coordinates is on `Int`, matching
Python's unbounded integers.
-/

/-- Splits a character list at every occurrence of `sep`: the chunk before the
first separator, and the list of the remaining chunks.  Mirrors Python
`str.split(sep)` for a one-character separator (splitting an empty string
gives one empty chunk). -/
def splitCharAux (sep : Char) : List Char → List Char × List (List Char)
  | [] => ([], [])
  | c :: cs =>
    let r := splitCharAux sep cs
    if c = sep then ([], r.1 :: r.2) else (c :: r.1, r.2)

/-- Python `s.split(sep)` for a one-character separator. -/
def splitChar (sep : Char) (l : List Char) : List (List Char) :=
  (splitCharAux sep l).1 :: (splitCharAux sep l).2

/-- Python `s.split("(")[0]`: the text before the first opening parenthesis
(the whole text when there is none). -/
def stripParen (t : List Char) : List Char := (splitCharAux '(' t).1

/-- Decimal digits to a natural number, as Python `int()` reads the digit
strings the annotator produces. -/
def parseDigits (cs : List Char) : Nat :=
  cs.foldl (fun n c => n * 10 + (c.toNat - 48)) 0

/-- Python `int()` on an optionally `-`-signed decimal string. -/
def parseInt : List Char → Int
  | [] => 0
  | c :: cs => if c = '-' then -(parseDigits cs : Int) else (parseDigits (c :: cs) : Int)

/-- Python `sep.join(l)`. -/
def pyJoin (sep : String) : List String → String
  | [] => ""
  | [a] => a
  | a :: rest => a ++ sep ++ pyJoin sep rest

/-- One line of a reference interval file: whether the raw line starts with the
comment marker `#`, and its tab-split fields. -/
structure RefLine where
  comment : Bool
  fields : List String
deriving DecidableEq

/-- A line of the bed6 `BedTool` object `__create_bed6` builds. -/
structure Bed6 where
  chrom : String
  start : Int
  stop : Int
  name : String
  score : String
  strand : String
deriving DecidableEq

/-- The scan of `__is_bed6_like`: walk the file with a line counter, stop
before the 100th physical line, skip comment lines (they are counted), fail
(`none`, Python `return False`) at a non-comment line with fewer than 6
columns, and otherwise collect the 6th column. -/
def collectStrands : Nat → List RefLine → Option (List String)
  | _, [] => some []
  | c, l :: ls =>
    if 100 ≤ c + 1 then some []
    else if l.comment then collectStrands (c + 1) ls
    else if l.fields.length < 6 then none
    else (collectStrands (c + 1) ls).map (fun ss => l.fields.getD 5 "" :: ss)

/-- `__is_bed6_like`: the collected strand values, as a set, must be exactly
one or both of `+` and `-`. -/
def is_bed6_like (lines : List RefLine) : Bool :=
  match collectStrands 0 lines with
  | none => false
  | some strands =>
    let s := strands.dedup
    if s.length = 2 ∧ "+" ∈ s ∧ "-" ∈ s then true
    else if s.length = 1 ∧ ("+" ∈ s ∨ "-" ∈ s) then true
    else false

/-- Interval-name resolution in `__create_bed6`: NAME mode takes the
`name_col`-th column when given, else column 4, else synthesizes
`chrom_start_end`; any other mode uses the entry's source string. -/
def resolve_name (anno_by name_col source : String) (fields : List String) : String :=
  if anno_by = "NAME" then
    if name_col ≠ "NA" then fields.getD (parseDigits name_col.toList) ""
    else if fields.length < 4 then pyJoin "_" (fields.take 3)
    else fields.getD 3 ""
  else source

/-- The anchor collapse of `__create_bed6` (`pos` is the `DISTANCE.TO` value):
the in-place updates of `start`/`end` for START, END and MID; any other value
leaves the interval unchanged.  `Int.tdiv` is Python `int((end-start)/2)`
(truncation toward zero). -/
def collapse (pos strand : String) (start stop : Int) : Int × Int :=
  if pos = "START" then
    if strand = "+" then (start, start + 1) else (stop - 1, stop)
  else if pos = "END" then
    if strand = "-" then (stop - 1, stop) else (start, start + 1)
  else if pos = "MID" then
    (start + Int.tdiv (stop - start) 2, start + Int.tdiv (stop - start) 2 + 1)
  else (start, stop)

/-- One non-comment line of `__create_bed6`: parse coordinates, resolve the
name, pick the strand, collapse to the anchor, append the
`(chrom_start_end)` suffix built from the collapsed coordinates, then pad by
`max_distance` clamping the start at 0. -/
def create_bed6_line (pos anno_by : String) (max_distance : Int)
    (source name_col : String) (bed6like : Bool) (fields : List String) : Bed6 :=
  let chrom := fields.getD 0 ""
  let start := parseInt (fields.getD 1 "").toList
  let stop := parseInt (fields.getD 2 "").toList
  let nm := resolve_name anno_by name_col source fields
  let strand := if bed6like then fields.getD 5 "" else "+"
  let p := collapse pos strand start stop
  let nm2 := nm ++ "(" ++ pyJoin "_" [fields.getD 0 "", toString p.1, toString p.2] ++ ")"
  let s3 := if 0 < p.1 - max_distance then p.1 - max_distance else 0
  ⟨chrom, s3, p.2 + max_distance, nm2, "NA", strand⟩

/-- `__create_bed6` over a whole reference file (the source calls
`__is_bed6_like` once per line on the same file, which is the same value). -/
def create_bed6 (lines : List RefLine) (pos anno_by : String) (max_distance : Int)
    (source name_col : String) : List Bed6 :=
  let b6 := is_bed6_like lines
  (lines.filter (fun l => !l.comment)).map
    (fun l => create_bed6_line pos anno_by max_distance source name_col b6 l.fields)

/-- The arithmetic core of `__calculate_distance`, on the recovered base and
database coordinates and the database strand. -/
def distance_core (base_start base_end db_start db_end : Int) (db_strand : String) : Int :=
  if db_end < base_start then
    let d := base_start - db_end
    if db_strand = "-" then -1 * d else d
  else if base_end < db_start then
    let d := db_start - base_end
    if db_strand = "-" then -1 * d else d
  else 0

/-- `__calculate_distance`: recover the base coordinates from the bed4 name
`chrom_start_end` and the database coordinates from the label suffix
`name(chrom_start_end)`, then apply the arithmetic core. -/
def calculate_distance (base_name db_name db_strand : String) : Int :=
  let bsplit := splitChar '_' base_name.toList
  let base_start := parseInt (bsplit.getD 1 [])
  let base_end := parseInt (bsplit.getD 2 [])
  let db_region := ((splitChar '(' db_name.toList).getD 1 []).dropLast
  let dsplit := splitChar '_' db_region
  let db_start := parseInt (dsplit.getD 1 [])
  let db_end := parseInt (dsplit.getD 2 [])
  distance_core base_start base_end db_start db_end db_strand

/-- A base interval (one row of the base table's first three columns). -/
structure Region where
  chrom : String
  start : Int
  stop : Int
deriving DecidableEq

/-- The base row identifier `chrom_start_end` (index of the base table and
name column of the bed4 object). -/
def mkId (r : Region) : String :=
  r.chrom ++ "_" ++ toString r.start ++ "_" ++ toString r.stop

/-- One `-wa -wb` record of `base_bed.intersect(anno_bed)`: the base interval
fields and the whole database bed6 entry. -/
structure Hit where
  aName : String
  aStart : Int
  aStop : Int
  b : Bed6
deriving DecidableEq

/-- bedtools `intersect` reports a pair iff the intervals are on the same
chromosome and share at least one base. -/
def bedOverlaps (r : Region) (x : Bed6) : Bool :=
  r.chrom = x.chrom ∧ max r.start x.start < min r.stop x.stop

/-- `base_bed.intersect(anno_bed, wa=True, wb=True)`: every overlapping
(base, database) pair, in base order. -/
def intersect (regions : List Region) (xs : List Bed6) : List Hit :=
  (regions.map (fun r => (xs.filter (bedOverlaps r)).map
    (fun x => Hit.mk (mkId r) r.start r.stop x))).flatten

/-- Python `==` between a `str` and an `int` (the `e[-1] == 0` test in
`annotate`, where `e[-1]` is the strand field, a string): values of different
types are never equal, so the test is always `False`. -/
def pyStrEqInt (_s : String) (_n : Int) : Bool := false

/-- One intersection record turned into an annotation entry:
`(base id, "name(distance)", distance)`. -/
def hitEntry (h : Hit) : String × String × Int :=
  let d := calculate_distance h.aName h.b.name h.b.strand
  let db_name := String.mk (stripParen h.b.name.toList)
  (h.aName, (db_name ++ "(" ++ toString d ++ ")", d))

/-- One step of building `intersect_dict`: append the hit to the base id's
list, or start a new list (Python dicts keep insertion order). -/
def addHit (d : List (String × List (String × Int))) (k : String) (h : String × Int) :
    List (String × List (String × Int)) :=
  if d.any (fun p => p.1 = k) then
    d.map (fun p => if p.1 = k then (p.1, p.2 ++ [h]) else p)
  else d ++ [(k, [h])]

/-- `intersect_dict`: hits grouped by base id, keys in first-occurrence order,
values in hit order. -/
def groupHits (l : List (String × String × Int)) : List (String × List (String × Int)) :=
  l.foldl (fun d x => addHit d x.1 x.2) []

/-- The sort key of `annotate`: ascending absolute distance. -/
def absLe (x y : String × Int) : Prop := x.2.natAbs ≤ y.2.natAbs

instance : DecidableRel absLe :=
  fun x y => inferInstanceAs (Decidable (x.2.natAbs ≤ y.2.natAbs))

/-- Python `sorted(hits, key=lambda a: abs(a[1]))`: a stable sort by ascending
absolute distance (insertion sort is stable, like Python's sort). -/
def sortHits (hits : List (String × Int)) : List (String × Int) :=
  List.insertionSort absLe hits

/-- The per-base result string: all sorted hits joined with `;` for
`N.HITS = ALL`, otherwise the first (closest) hit. -/
def selectResult (n_hits : String) (hits : List (String × Int)) : String :=
  if n_hits = "ALL" then pyJoin ";" ((sortHits hits).map Prod.fst)
  else ((sortHits hits).headD ("", 0)).1

/-- Combining the result with the existing column value: set when the value is
the `NA` sentinel, append with a `;` otherwise. -/
def combineAnno (anno result : String) : String :=
  if anno = "NA" then result else anno ++ ";" ++ result

/-- The base table: its intervals and its columns, each column an association
list from row identifier to cell value. -/
structure BaseTable where
  regions : List Region
  cols : List (String × List (String × String))
deriving DecidableEq

/-- The parenthesis-stripped tokens of every `;`-split cell of a column
(`__anno_done`'s `sources` before the `set(...)`). -/
def colSources (col : List (String × String)) : List (List Char) :=
  ((col.map (fun p => splitChar ';' p.2.toList)).flatten).map stripParen

/-- `__anno_done`: false when the column is missing; for SOURCE mode true iff
the source appears among the column's stripped tokens; otherwise true. -/
def anno_done (b : BaseTable) (region_type source anno_by : String) : Bool :=
  match b.cols.lookup region_type with
  | none => false
  | some col =>
    if anno_by = "SOURCE" then (colSources col).contains source.toList
    else true

/-- Column initialization in `annotate`: when the region type column is
missing, add it with every row set to the `NA` sentinel. -/
def initCol (b : BaseTable) (region_type : String) : BaseTable :=
  if (b.cols.lookup region_type).isSome then b
  else { b with cols := b.cols ++ [(region_type, b.regions.map (fun r => (mkId r, "NA")))] }

/-- `self.__base.loc[base_name, region_type] = v` on one column. -/
def applyWrite (col : List (String × String)) (k v : String) : List (String × String) :=
  col.map (fun p => if p.1 = k then (p.1, v) else p)

/-- The merge step of `annotate` for one base id: read the current cell, sort
and select the hits, and write the combined value back. -/
def mergeOne (b : BaseTable) (region_type n_hits : String)
    (g : String × List (String × Int)) : BaseTable :=
  let anno := (((b.cols.lookup region_type).getD []).lookup g.1).getD "NA"
  let newVal := combineAnno anno (selectResult n_hits g.2)
  { b with cols := b.cols.map (fun c =>
      if c.1 = region_type then (c.1, applyWrite c.2 g.1 newVal) else c) }

/-- One row of the annotation database. -/
structure DbRow where
  filename : String
  region_type : String
  source : String
  anno_by : String
  max_distance : Int
  distance_to : String
  n_hits : String
  name_col : String
deriving DecidableEq

/-- The annotation entries one database row produces: build the padded bed6
set, intersect with the base intervals, drop records with `e[-1] == 0` (none,
see `pyStrEqInt`), and format each hit. -/
def rowEntries (files : String → List RefLine) (regions : List Region) (row : DbRow) :
    List (String × String × Int) :=
  let annoBed := create_bed6 (files row.filename) row.distance_to row.anno_by
      row.max_distance row.source row.name_col
  ((intersect regions annoBed).filter (fun h => !pyStrEqInt h.b.strand 0)).map hitEntry

/-- The body of `annotate`'s loop for one database row: skip when
`__anno_done`, otherwise initialize the column, compute the hits and merge
them base id by base id. -/
def annotate_row (files : String → List RefLine) (b : BaseTable) (row : DbRow) : BaseTable :=
  if anno_done b row.region_type row.source row.anno_by then b
  else
    let b1 := initCol b row.region_type
    (groupHits (rowEntries files b1.regions row)).foldl
      (fun acc g => mergeOne acc row.region_type row.n_hits g) b1

/-- `annotate`: process the database rows in order over the shared base
table. -/
def annotate (files : String → List RefLine) (db : List DbRow) (b : BaseTable) : BaseTable :=
  db.foldl (annotate_row files) b

/-- The errors `__check_database` raises. -/
inductive DbError where
  | missingColumn (c : String)
  | fileNotFound (f : String)
  | nameConflict (region_type : String)
  | annoByConflict (region_type : String)
deriving DecidableEq

/-- The loaded database: its column names and its rows. -/
structure Database where
  columns : List String
  rows : List DbRow
deriving DecidableEq

/-- The eight required database columns. -/
def requiredFields : List String :=
  ["FILENAME", "REGION.TYPE", "SOURCE", "ANNOTATION.BY",
   "MAX.DISTANCE", "DISTANCE.TO", "N.HITS", "NAME.COL"]

/-- One step of building `region_type_dict`: append the row's annotation mode
to its region type's list, or start a new entry. -/
def rtStep (d : List (String × List String)) (r : DbRow) : List (String × List String) :=
  if d.any (fun p => p.1 = r.region_type) then
    d.map (fun p => if p.1 = r.region_type then (p.1, p.2 ++ [r.anno_by]) else p)
  else d ++ [(r.region_type, [r.anno_by])]

/-- `region_type_dict`: region type to the list of its `ANNOTATION.BY` values,
keys in first-occurrence order. -/
def rtDict (rows : List DbRow) : List (String × List String) :=
  rows.foldl rtStep []

/-- The region-type consistency loop of `__check_database`: more than one NAME
entry for a region type, or two different `ANNOTATION.BY` values for it. -/
def regionTypeCheck (rows : List DbRow) : Option DbError :=
  (rtDict rows).findSome? (fun p =>
    if 1 < p.2.count "NAME" then some (DbError.nameConflict p.1)
    else if 1 < p.2.dedup.length then some (DbError.annoByConflict p.1)
    else none)

/-- `__check_database`: required columns, then file existence, then the
region-type consistency checks, in the source's order. -/
def check_database (exists_file : String → Bool) (db : Database) : Option DbError :=
  match requiredFields.find? (fun c => !db.columns.contains c) with
  | some c => some (DbError.missingColumn c)
  | none =>
    match db.rows.find? (fun r => !exists_file r.filename) with
    | some r => some (DbError.fileNotFound r.filename)
    | none => regionTypeCheck db.rows

/-- The annotator's mutable state: the loaded database and base (if any). -/
structure Annotator where
  database : Option Database
  base : Option BaseTable

/-- `load_database_from_file` / `load_database_from_dataframe`: store the
database, then run `__check_database`, which resets the stored database only
in its missing-column branch. -/
def load_database (exists_file : String → Bool) (a : Annotator) (db : Database) :
    Annotator × Option DbError :=
  match check_database exists_file db with
  | some (DbError.missingColumn c) =>
    ({ a with database := none }, some (DbError.missingColumn c))
  | r => ({ a with database := some db }, r)

/-- The errors `annotate` raises before touching any row. -/
inductive GuardError where
  | baseUndefined
  | databaseUndefined
deriving DecidableEq

/-- The definedness checks at the top of `annotate`. -/
def annotate_guard (a : Annotator) : Option GuardError :=
  if a.base.isNone then some GuardError.baseUndefined
  else if a.database.isNone then some GuardError.databaseUndefined
  else none

/-- Modelled from the spec: the strand-use condition as the specification
words it (spec 4.2 step 2): among the first 100 non-comment lines, at least
one provides a strand column, and those values form a consistent subset of
the two strand signs. -/
def spec_strand_condition (lines : List RefLine) : Bool :=
  let first100 := (lines.filter (fun l => !l.comment)).take 100
  let vals := (first100.filter (fun l => 6 ≤ l.fields.length)).map (fun l => l.fields.getD 5 "")
  !vals.isEmpty && vals.all (fun s => s == "+" || s == "-")

/-- The number of NAME-mode entries sharing a region type. -/
def nameCount (rows : List DbRow) (rt : String) : Nat :=
  ((rows.filter (fun r => r.region_type = rt)).map (fun r => r.anno_by)).count "NAME"

/-- The distinct `ANNOTATION.BY` values of a region type's entries. -/
def abValues (rows : List DbRow) (rt : String) : List String :=
  ((rows.filter (fun r => r.region_type = rt)).map (fun r => r.anno_by)).dedup

/-- A SOURCE label that the token recovery of `__anno_done` reconstructs
exactly: free of the `;` separator and the `(` delimiter, and distinct from
the `NA` sentinel. -/
def cleanSource (s : String) : Prop :=
  ';' ∉ s.toList ∧ '(' ∉ s.toList ∧ s ≠ "NA"

/-- A database row whose completion tracking is reliable: SOURCE mode only
with a clean source label. -/
def cleanRow (r : DbRow) : Prop := r.anno_by = "SOURCE" → cleanSource r.source

/-- Every row of the database is clean. -/
def cleanDb (db : List DbRow) : Prop := ∀ r ∈ db, cleanRow r

/-- Well-formedness of the base table as loading produces it: every column is
keyed by exactly the row identifiers, in row order, and identifiers are
unique. -/
def BaseTable.WF (b : BaseTable) : Prop :=
  (∀ c ∈ b.cols, c.2.map Prod.fst = b.regions.map mkId) ∧ (b.regions.map mkId).Nodup

/-- The source token is present in the region type's column. -/
def tokenIn (b : BaseTable) (region_type source : String) : Prop :=
  ∃ col, b.cols.lookup region_type = some col ∧ source.toList ∈ colSources col

/-- A database row that a further `annotate` run cannot change: its column
exists, and it is either recorded as done or produces no hit. -/
def rowSettled (files : String → List RefLine) (b : BaseTable) (row : DbRow) : Prop :=
  (b.cols.lookup row.region_type).isSome = true ∧
  (anno_done b row.region_type row.source row.anno_by = true ∨
    rowEntries files b.regions row = [])

instance : IsTotal (String × Int) absLe :=
  ⟨fun a b => Nat.le_total a.2.natAbs b.2.natAbs⟩

instance : IsTrans (String × Int) absLe :=
  ⟨fun _ _ _ h1 h2 => Nat.le_trans h1 h2⟩

/-- The base table of the specification's MID scenario: one row chr1 100 200,
with its original header column. -/
def c1base : BaseTable :=
  ⟨[⟨"chr1", 100, 200⟩], [("#chrom", [("chr1_100_200", "chr1")])]⟩

/-- The reference file of the MID scenario, the single line
`chr1 300 310 foo 0 +`. -/
def c1files : String → List RefLine :=
  fun _ => [⟨false, ["chr1", "300", "310", "foo", "0", "+"]⟩]

/-- The database row of the MID scenario: NAME annotation, maximal distance
200, distance to MID, all hits. -/
def c1row : DbRow := ⟨"ref", "genes", "geneA", "NAME", 200, "MID", "ALL", "NA"⟩

/-- A reference file with a single hit line `chr1 150 160 x 0 +`. -/
def c4files : String → List RefLine :=
  fun _ => [⟨false, ["chr1", "150", "160", "x", "0", "+"]⟩]

/-- A SOURCE-mode database row whose source label contains the `;`
separator. -/
def c4row : DbRow := ⟨"f", "rt", "a;b", "SOURCE", 0, "REGION", "ALL", "NA"⟩

/-- A one-row base table. -/
def c4base : BaseTable :=
  ⟨[⟨"chr1", 100, 200⟩], [("#chrom", [("chr1_100_200", "chr1")])]⟩

/-- A SOURCE-mode database row with a clean source label. -/
def w4row : DbRow := ⟨"f", "rt", "s", "SOURCE", 0, "REGION", "ALL", "NA"⟩

/-- A reference file with a single hit line, for the idempotence witness. -/
def w4files : String → List RefLine :=
  fun _ => [⟨false, ["chr1", "150", "160", "x", "0", "+"]⟩]

/-- A one-row base table for the idempotence witness. -/
def w4base : BaseTable :=
  ⟨[⟨"chr1", 100, 200⟩], [("#chrom", [("chr1_100_200", "chr1")])]⟩

/-- 99 comment lines followed by one data line with strand `-`: the only
non-comment line is the 100th physical line, which `__is_bed6_like` never
reads. -/
def c7file : List RefLine :=
  List.replicate 99 ⟨true, ["#c"]⟩ ++ [⟨false, ["chr1", "10", "20", "n", "0", "-"]⟩]

/-- A one-column base table with one recorded source token. -/
def w6base : BaseTable := ⟨[⟨"chr1", 0, 1⟩], [("rt", [("chr1_0_1", "s(0)")])]⟩

/-- An empty-column base table for the guard witness. -/
def w10base : BaseTable := ⟨[⟨"chr1", 0, 1⟩], []⟩

/-- A database with all required columns and one row. -/
def w10db : Database := ⟨requiredFields, [⟨"f", "rt", "s", "SOURCE", 0, "REGION", "ALL", "NA"⟩]⟩

/-- C2: the END anchor branch of `__create_bed6` collapses a `+`-strand
interval to its first base, exactly as START does, instead of the mirror-image
last base the specification describes: for the interval 300..310 the END
anchor on strand `+` gives (300, 301), not (309, 310); on strand `-` it gives
(309, 310), not (300, 301). -/
theorem C2_end_anchor_collapses_like_start :
    collapse "END" "+" 300 310 = (300, 301) ∧
    collapse "START" "+" 300 310 = (300, 301) ∧
    collapse "END" "-" 300 310 = (309, 310) ∧
    ((300, 301) : Int × Int) ≠ (309, 310) :=
  ⟨rfl, rfl, rfl, by decide⟩

/-- C3 counterexample: contrary to the claim's sign example, a base interval
at 50..60 upstream of a `+`-strand reference interval at 100..110 receives
the positive distance 40, not a negative one. -/
theorem C3_counterexample_upstream_positive :
    distance_core 50 60 100 110 "+" = 40 ∧ ¬distance_core 50 60 100 110 "+" < 0 :=
  ⟨rfl, by decide⟩

/-- C3 amended: the piecewise distance formula holds as the claim writes it,
but the resulting sign encodes only the reference strand, not the
upstream/downstream side: a `+`-strand reference gives non-negative distances
on both sides (40 for the bases 50..60 and 150..160 around 100..110), a
`-`-strand reference non-positive ones. -/
theorem C3_amended_distance_sign :
    (∀ bs be ds de : Int, ∀ strand : String, de < bs →
      distance_core bs be ds de strand =
        if strand = "-" then -1 * (bs - de) else bs - de) ∧
    (∀ bs be ds de : Int, ∀ strand : String, ¬de < bs → be < ds →
      distance_core bs be ds de strand =
        if strand = "-" then -1 * (ds - be) else ds - be) ∧
    (∀ bs be ds de : Int, ∀ strand : String, ¬de < bs → ¬be < ds →
      distance_core bs be ds de strand = 0) ∧
    (∀ bs be ds de : Int, 0 ≤ distance_core bs be ds de "+") ∧
    (∀ bs be ds de : Int, distance_core bs be ds de "-" ≤ 0) ∧
    distance_core 50 60 100 110 "+" = 40 ∧
    distance_core 150 160 100 110 "+" = 40 ∧
    distance_core 50 60 100 110 "-" = -40 ∧
    distance_core 150 160 100 110 "-" = -40 := by
  refine ⟨?_, ?_, ?_, ?_, ?_, rfl, rfl, rfl, rfl⟩
  · intro bs be ds de strand h
    simp [distance_core, h]
  · intro bs be ds de strand h1 h2
    simp [distance_core, h1, h2]
  · intro bs be ds de strand h1 h2
    simp [distance_core, h1, h2]
  · intro bs be ds de
    by_cases h1 : de < bs
    · simp only [distance_core, if_pos h1]
      simp
      omega
    · by_cases h2 : be < ds
      · simp only [distance_core, if_neg h1, if_pos h2]
        simp
        omega
      · simp [distance_core, h1, h2]
  · intro bs be ds de
    by_cases h1 : de < bs
    · simp only [distance_core, if_pos h1]
      simp
      omega
    · by_cases h2 : be < ds
      · simp only [distance_core, if_neg h1, if_pos h2]
        simp
        omega
      · simp [distance_core, h1, h2]

/-- C1 counterexample: in the specification's MID scenario (base chr1
100..200, reference line `chr1 300 310 foo 0 +`, maximal distance 200,
distance to MID) the annotation value is `foo(105)`, not the claimed
`foo(100)`: the label suffix carries the collapsed midpoint, so the distance
is computed to it. -/
theorem C1_counterexample_mid_scenario :
    (annotate c1files [c1row] c1base).cols.lookup "genes" =
      some [("chr1_100_200", "foo(105)")] ∧
    ("foo(105)" : String) ≠ "foo(100)" :=
  ⟨rfl, by decide⟩

/-- C1 amended: `__create_bed6` appends the anchor-collapsed (but unpadded)
coordinates to the label, and the distance computation therefore recovers the
collapsed anchor: the scenario's reference interval is labelled
`foo(chr1_305_306)`, the recovered distance is 105, and the annotation value
is `foo(105)`. -/
theorem C1_amended_label_has_collapsed_coordinates :
    (create_bed6 (c1files "ref") "MID" "NAME" 200 "geneA" "NA").map Bed6.name =
      ["foo(chr1_305_306)"] ∧
    calculate_distance "chr1_100_200" "foo(chr1_305_306)" "+" = 105 ∧
    (annotate c1files [c1row] c1base).cols.lookup "genes" =
      some [("chr1_100_200", "foo(105)")] :=
  ⟨rfl, rfl, rfl⟩

/-- C5: the merge step sorts hits by ascending absolute distance with a
stable sort (a permutation, sorted under the key, ties keeping input order),
`ALL` keeps all sorted hits joined with `;`, `CLOSEST` keeps the minimum one,
and the result is appended after a `;` to a non-sentinel column value and
otherwise set directly. -/
theorem C5_merge_semantics :
    (∀ hits : List (String × Int), List.Sorted absLe (sortHits hits)) ∧
    (∀ hits : List (String × Int), (sortHits hits).Perm hits) ∧
    sortHits [("a", 3), ("b", -3)] = [("a", 3), ("b", -3)] ∧
    selectResult "ALL" [("label(7)", 7), ("label(-2)", -2), ("label(3)", 3)] =
      "label(-2);label(3);label(7)" ∧
    selectResult "CLOSEST" [("a(-5)", -5), ("b(3)", 3), ("c(-1)", -1)] = "c(-1)" ∧
    (∀ anno result : String, anno ≠ "NA" →
      combineAnno anno result = anno ++ ";" ++ result) ∧
    (∀ result : String, combineAnno "NA" result = result) := by
  refine ⟨fun hits => List.sorted_insertionSort absLe hits,
          fun hits => List.perm_insertionSort absLe hits, rfl, rfl, rfl,
          fun anno result h => by simp [combineAnno, h],
          fun result => rfl⟩

/-- C7 counterexample: this file satisfies the specification's strand-use
condition (its sole non-comment line has a strand column with the consistent
value `-`), yet the code scans only the first 99 physical lines — comment
lines included in the count — collects no strand value, and assigns the
built interval strand `+`. -/
theorem C7_counterexample_comment_counting :
    spec_strand_condition c7file = true ∧
    (c7file.filter (fun l => !l.comment)).map (fun l => l.fields.getD 5 "") = ["-"] ∧
    is_bed6_like c7file = false ∧
    (create_bed6 c7file "REGION" "SOURCE" 0 "s" "NA").map Bed6.strand = ["+"] ∧
    ("+" : String) ≠ "-" :=
  ⟨rfl, rfl, rfl, rfl, by decide⟩

/-- C8: the `e[-1] == 0` filter in `annotate` discards nothing (it compares
the strand string with an integer), the intersection reports exactly the
pairs sharing at least one base — so every raw hit has positive overlap with
its base interval and every positive-overlap pair is kept — and touching
intervals are never reported at all. -/
theorem C8_touching_hits_excluded :
    (∀ (regions : List Region) (xs : List Bed6),
      (intersect regions xs).filter (fun h => !pyStrEqInt h.b.strand 0) =
        intersect regions xs) ∧
    (∀ (regions : List Region) (xs : List Bed6) (h : Hit), h ∈ intersect regions xs →
      0 < min h.aStop h.b.stop - max h.aStart h.b.start) ∧
    (∀ (regions : List Region) (xs : List Bed6) (r : Region) (x : Bed6),
      r ∈ regions → x ∈ xs → bedOverlaps r x = true →
      Hit.mk (mkId r) r.start r.stop x ∈ intersect regions xs) ∧
    (∀ (r : Region) (x : Bed6), r.stop = x.start → bedOverlaps r x = false) ∧
    (∀ (r : Region) (x : Bed6), x.stop = r.start → bedOverlaps r x = false) := by
  refine ⟨?_, ?_, ?_, ?_, ?_⟩
  · intro regions xs
    apply List.filter_eq_self.mpr
    intro h _
    simp [pyStrEqInt]
  · intro regions xs h hm
    simp only [intersect, List.mem_flatten, List.mem_map] at hm
    obtain ⟨l, ⟨r, hr, rfl⟩, hmem⟩ := hm
    obtain ⟨x, hx, rfl⟩ := List.mem_map.mp hmem
    have hov := (List.mem_filter.mp hx).2
    simp only [bedOverlaps, decide_eq_true_eq] at hov
    have hlt := hov.2
    simp only [Hit.aStop, Hit.b]
    omega
  · intro regions xs r x hr hx hov
    simp only [intersect, List.mem_flatten, List.mem_map]
    exact ⟨_, ⟨r, hr, rfl⟩, List.mem_map.mpr ⟨x, List.mem_filter.mpr ⟨hx, hov⟩, rfl⟩⟩
  · intro r x hrx
    simp only [bedOverlaps, decide_eq_false_iff_not]
    rintro ⟨-, hlt⟩
    omega
  · intro r x hrx
    simp only [bedOverlaps, decide_eq_false_iff_not]
    rintro ⟨-, hlt⟩
    omega

/-- C6: `__anno_done` returns true exactly when the region type column exists
and either the mode is NAME, or the mode is SOURCE and the source occurs
among the parenthesis-stripped `;`-tokens of the column's values. -/
theorem C6_anno_done_iff (b : BaseTable) (region_type source anno_by : String)
    (h : anno_by = "NAME" ∨ anno_by = "SOURCE") :
    anno_done b region_type source anno_by = true ↔
      ((b.cols.lookup region_type).isSome = true ∧
        (anno_by = "NAME" ∨ (anno_by = "SOURCE" ∧
          ∃ col, b.cols.lookup region_type = some col ∧
            source.toList ∈ colSources col))) := by
  unfold anno_done
  cases hcol : b.cols.lookup region_type with
  | none => simp
  | some col =>
    rcases h with h | h <;> subst h
    · simp
    · simp [List.elem_iff]

/-- The witness for C6 at a concrete table: the SOURCE `s` is recorded in
column `rt`, so the completion check fires. -/
theorem C6_anno_done_iff_witness :
    anno_done w6base "rt" "s" "SOURCE" = true ↔
      ((w6base.cols.lookup "rt").isSome = true ∧
        ("SOURCE" = "NAME" ∨ ("SOURCE" = "SOURCE" ∧
          ∃ col, w6base.cols.lookup "rt" = some col ∧
            ("s" : String).toList ∈ colSources col))) :=
  C6_anno_done_iff w6base "rt" "s" "SOURCE" (Or.inr rfl)

/-- The region-type loop of `__check_database` only ever raises the two
conflict errors. -/
theorem regionTypeCheck_shape (rows : List DbRow) (e : DbError)
    (h : regionTypeCheck rows = some e) :
    (∃ rt, e = DbError.nameConflict rt) ∨ ∃ rt, e = DbError.annoByConflict rt := by
  obtain ⟨p, hp, hpe⟩ := List.exists_of_findSome?_eq_some h
  split_ifs at hpe with h1 h2
  · injection hpe with hh
    exact Or.inl ⟨p.1, hh.symm⟩
  · injection hpe with hh
    exact Or.inr ⟨p.1, hh.symm⟩

/-- C10: a failing database load whose table has all required columns (a
missing file or a region-type conflict) keeps the rejected database stored,
so with a base loaded the definedness guard of `annotate` passes; only the
missing-column failure resets the stored database. -/
theorem C10_failed_load_keeps_database (exists_file : String → Bool) (a : Annotator)
    (db : Database)
    (hbase : a.base.isSome = true)
    (hcols : requiredFields.find? (fun c => !db.columns.contains c) = none)
    (hfail : (check_database exists_file db).isSome = true) :
    (load_database exists_file a db).1.database = some db ∧
    (load_database exists_file a db).2.isSome = true ∧
    annotate_guard (load_database exists_file a db).1 = none ∧
    (∀ (db2 : Database) (c : String),
      check_database exists_file db2 = some (DbError.missingColumn c) →
      (load_database exists_file a db2).1.database = none) := by
  obtain ⟨bt, hbt⟩ := Option.isSome_iff_exists.mp hbase
  have hchk : ∃ e, check_database exists_file db = some e ∧
      ∀ c, e ≠ DbError.missingColumn c := by
    unfold check_database
    rw [hcols]
    cases hr : db.rows.find? (fun r => !exists_file r.filename) with
    | some r => exact ⟨DbError.fileNotFound r.filename, rfl, fun c => by simp⟩
    | none =>
      unfold check_database at hfail
      rw [hcols, hr] at hfail
      obtain ⟨e, he⟩ := Option.isSome_iff_exists.mp hfail
      refine ⟨e, he, fun c hc => ?_⟩
      rcases regionTypeCheck_shape db.rows e he with ⟨rt, hrt⟩ | ⟨rt, hrt⟩ <;>
        simp [hc] at hrt
  obtain ⟨e, he, hne⟩ := hchk
  have hload : load_database exists_file a db = ({ a with database := some db }, some e) := by
    unfold load_database
    rw [he]
    cases e with
    | missingColumn c => exact absurd rfl (hne c)
    | fileNotFound f => rfl
    | nameConflict rt => rfl
    | annoByConflict rt => rfl
  refine ⟨by rw [hload], by rw [hload]; rfl, ?_, ?_⟩
  · rw [hload]
    show annotate_guard { a with database := some db } = none
    unfold annotate_guard
    simp [hbt]
  · intro db2 c h2
    unfold load_database
    rw [h2]

/-- The witness for C10: loading a complete-columned database whose single
file does not exist fails but leaves the database stored, and the guard of
`annotate` passes. -/
theorem C10_failed_load_keeps_database_witness :
    (load_database (fun _ => false) ⟨none, some w10base⟩ w10db).1.database = some w10db ∧
    (load_database (fun _ => false) ⟨none, some w10base⟩ w10db).2.isSome = true ∧
    annotate_guard (load_database (fun _ => false) ⟨none, some w10base⟩ w10db).1 = none ∧
    (∀ (db2 : Database) (c : String),
      check_database (fun _ => false) db2 = some (DbError.missingColumn c) →
      (load_database (fun _ => false) ⟨none, some w10base⟩ db2).1.database = none) :=
  C10_failed_load_keeps_database (fun _ => false) ⟨none, some w10base⟩ w10db rfl rfl rfl

/-- The fold of `rtStep` builds, for every key, exactly the annotation modes
of that key's rows, and covers every processed row's region type. -/
theorem rtDict_fold_inv (rest : List DbRow) :
    ∀ (processed : List DbRow) (acc : List (String × List String)),
      (∀ q ∈ acc,
        q.2 = (processed.filter (fun r => r.region_type = q.1)).map (fun r => r.anno_by)) →
      (∀ x ∈ processed, ∃ q ∈ acc, q.1 = x.region_type) →
      (∀ q ∈ rest.foldl rtStep acc,
        q.2 = ((processed ++ rest).filter (fun r => r.region_type = q.1)).map
                (fun r => r.anno_by)) ∧
      (∀ x ∈ processed ++ rest, ∃ q ∈ rest.foldl rtStep acc, q.1 = x.region_type) := by
  induction rest with
  | nil =>
    intro processed acc h1 h2
    constructor
    · intro q hq
      simpa using h1 q hq
    · intro x hx
      exact h2 x (by simpa using hx)
  | cons r rs ih =>
    intro processed acc h1 h2
    have step1 : ∀ q ∈ rtStep acc r,
        q.2 = ((processed ++ [r]).filter (fun row => row.region_type = q.1)).map
                (fun row => row.anno_by) := by
      intro q hq
      unfold rtStep at hq
      by_cases hany : acc.any (fun p => p.1 = r.region_type)
      · rw [if_pos hany] at hq
        obtain ⟨q0, hq0, rfl⟩ := List.mem_map.mp hq
        by_cases hk : q0.1 = r.region_type
        · rw [if_pos hk]
          simp only [List.filter_append, List.map_append, h1 q0 hq0]
          simp [hk, List.filter_cons]
        · rw [if_neg hk]
          simp only [List.filter_append, List.map_append, h1 q0 hq0]
          have : r.region_type ≠ q0.1 := fun he => hk he.symm
          simp [List.filter_cons, this]
      · rw [if_neg hany] at hq
        rcases List.mem_append.mp hq with hq0 | hnew
        · have hk : q.1 ≠ r.region_type := by
            intro he
            exact hany (List.any_eq_true.mpr ⟨q, hq0, by simp [he]⟩)
          simp only [List.filter_append, List.map_append, h1 q hq0]
          have : ¬r.region_type = q.1 := fun he => hk he.symm
          simp [List.filter_cons, this]
        · have hqv : q = (r.region_type, [r.anno_by]) := by simpa using hnew
          subst hqv
          have hnone : processed.filter (fun row => row.region_type = r.region_type) = [] := by
            apply List.filter_eq_nil_iff.mpr
            intro x hx
            simp only [decide_eq_true_eq]
            intro he
            obtain ⟨q2, hq2, hk2⟩ := h2 x hx
            exact hany (List.any_eq_true.mpr ⟨q2, hq2, by simp [hk2, he]⟩)
          simp [List.filter_append, List.filter_cons, hnone]
    have step2 : ∀ x ∈ processed ++ [r], ∃ q ∈ rtStep acc r, q.1 = x.region_type := by
      intro x hx
      unfold rtStep
      rcases List.mem_append.mp hx with hxp | hxr
      · obtain ⟨q, hq, hk⟩ := h2 x hxp
        by_cases hany : acc.any (fun p => p.1 = r.region_type)
        · rw [if_pos hany]
          by_cases hk2 : q.1 = r.region_type
          · exact ⟨(q.1, q.2 ++ [r.anno_by]), List.mem_map.mpr ⟨q, hq, by rw [if_pos hk2]⟩, hk⟩
          · exact ⟨q, List.mem_map.mpr ⟨q, hq, by rw [if_neg hk2]⟩, hk⟩
        · rw [if_neg hany]
          exact ⟨q, List.mem_append_left _ hq, hk⟩
      · have hxr2 : x = r := by simpa using hxr
        rw [hxr2]
        by_cases hany : acc.any (fun p => p.1 = r.region_type)
        · rw [if_pos hany]
          obtain ⟨q, hq, hk⟩ := List.any_eq_true.mp hany
          simp only [decide_eq_true_eq] at hk
          by_cases hk2 : q.1 = r.region_type
          · exact ⟨(q.1, q.2 ++ [r.anno_by]), List.mem_map.mpr ⟨q, hq, by rw [if_pos hk2]⟩, hk⟩
          · exact absurd hk hk2
        · rw [if_neg hany]
          exact ⟨(r.region_type, [r.anno_by]), List.mem_append_right _ (by simp), rfl⟩
    have hmain := ih (processed ++ [r]) (rtStep acc r) step1 step2
    constructor
    · intro q hq
      have := hmain.1 q (by simpa using hq)
      simpa using this
    · intro x hx
      have hx2 : x ∈ (processed ++ [r]) ++ rs := by
        simpa using hx
      have := hmain.2 x hx2
      simpa using this

/-- `rtDict` holds, per key, exactly the annotation modes of that key's rows,
and covers every row's region type. -/
theorem rtDict_spec (rows : List DbRow) :
    (∀ q ∈ rtDict rows,
      q.2 = (rows.filter (fun r => r.region_type = q.1)).map (fun r => r.anno_by)) ∧
    (∀ x ∈ rows, ∃ q ∈ rtDict rows, q.1 = x.region_type) := by
  have h := rtDict_fold_inv rows [] [] (by simp) (by simp)
  simpa [rtDict] using h

/-- `regionTypeCheck` fires exactly when some region type has more than one
NAME entry or two different annotation modes. -/
theorem regionTypeCheck_isSome_iff (rows : List DbRow) :
    (regionTypeCheck rows).isSome = true ↔
      ((∃ r ∈ rows, 1 < nameCount rows r.region_type) ∨
       (∃ r ∈ rows, 1 < (abValues rows r.region_type).length)) := by
  obtain ⟨hval, hcov⟩ := rtDict_spec rows
  constructor
  · intro h
    obtain ⟨e, he⟩ := Option.isSome_iff_exists.mp h
    obtain ⟨p, hp, hpe⟩ := List.exists_of_findSome?_eq_some he
    have hv := hval p hp
    have hrow : p.2 ≠ [] → ∃ r ∈ rows, r.region_type = p.1 := by
      intro hne
      have hfil : rows.filter (fun r => r.region_type = p.1) ≠ [] := by
        intro h0
        rw [h0] at hv
        exact hne (by simpa using hv)
      obtain ⟨r0, hr0⟩ := List.exists_mem_of_ne_nil _ hfil
      have hm := List.mem_filter.mp hr0
      exact ⟨r0, hm.1, by simpa using hm.2⟩
    split_ifs at hpe with h1 h2
    · obtain ⟨r0, hr0, hrt⟩ := hrow (by
        intro h0
        rw [h0] at h1
        simp at h1)
      refine Or.inl ⟨r0, hr0, ?_⟩
      unfold nameCount
      rw [hrt, ← hv]
      exact h1
    · obtain ⟨r0, hr0, hrt⟩ := hrow (by
        intro h0
        rw [h0] at h2
        simp at h2)
      refine Or.inr ⟨r0, hr0, ?_⟩
      unfold abValues
      rw [hrt, ← hv]
      exact h2
  · intro h
    rw [Option.isSome_iff_ne_none]
    intro hnone
    unfold regionTypeCheck at hnone
    rcases h with ⟨r0, hr0, hcnt⟩ | ⟨r0, hr0, hlen⟩ <;>
      obtain ⟨p, hp, hk⟩ := hcov r0 hr0
    · have hfp := List.findSome?_eq_none_iff.mp hnone p hp
      have hv := hval p hp
      have hcnt2 : 1 < p.2.count "NAME" := by
        rw [hv, hk]
        exact hcnt
      rw [if_pos hcnt2] at hfp
      simp at hfp
    · have hfp := List.findSome?_eq_none_iff.mp hnone p hp
      have hv := hval p hp
      have hlen2 : 1 < p.2.dedup.length := by
        rw [hv, hk]
        exact hlen
      by_cases hcnt2 : 1 < p.2.count "NAME"
      · rw [if_pos hcnt2] at hfp
        simp at hfp
      · rw [if_neg hcnt2, if_pos hlen2] at hfp
        simp at hfp

/-- C9: `__check_database` raises exactly when a required column is missing, a
referenced file does not exist, some region type has more than one NAME-mode
entry, or some region type has two different annotation modes; otherwise
loading succeeds. -/
theorem C9_check_database_iff (exists_file : String → Bool) (db : Database) :
    (check_database exists_file db).isSome = true ↔
      ((∃ c ∈ requiredFields, c ∉ db.columns) ∨
       (∃ r ∈ db.rows, exists_file r.filename = false) ∨
       (∃ r ∈ db.rows, 1 < nameCount db.rows r.region_type) ∨
       (∃ r ∈ db.rows, 1 < (abValues db.rows r.region_type).length)) := by
  unfold check_database
  cases h1 : requiredFields.find? (fun c => !db.columns.contains c) with
  | some c =>
    simp only [Option.isSome_some, true_iff]
    refine Or.inl ⟨c, List.mem_of_find?_eq_some h1, ?_⟩
    have hpc := List.find?_some h1
    simpa [List.contains, List.elem_iff] using hpc
  | none =>
    have hno1 : ¬∃ c ∈ requiredFields, c ∉ db.columns := by
      rintro ⟨c, hc, hnc⟩
      have hx := List.find?_eq_none.mp h1 c hc
      simp [List.contains, List.elem_iff] at hx
      exact hnc hx
    cases h2 : db.rows.find? (fun r => !exists_file r.filename) with
    | some r =>
      simp only [Option.isSome_some, true_iff]
      refine Or.inr (Or.inl ⟨r, List.mem_of_find?_eq_some h2, ?_⟩)
      have hpr := List.find?_some h2
      simpa using hpr
    | none =>
      have hno2 : ¬∃ r ∈ db.rows, exists_file r.filename = false := by
        rintro ⟨r, hr, hf⟩
        have hx := List.find?_eq_none.mp h2 r hr
        simp [hf] at hx
      rw [regionTypeCheck_isSome_iff]
      constructor
      · intro h
        exact Or.inr (Or.inr h)
      · rintro (hc | hc | hc | hc)
        · exact absurd hc hno1
        · exact absurd hc hno2
        · exact Or.inl hc
        · exact Or.inr hc

/-- A duplicate-free list of strings is covered by the two checks of
`__is_bed6_like` exactly when it is nonempty and contains only the two strand
signs. -/
theorem nodup_pm_iff (d : List String) (hd : d.Nodup) :
    ((d.length = 2 ∧ "+" ∈ d ∧ "-" ∈ d) ∨
     (d.length = 1 ∧ ("+" ∈ d ∨ "-" ∈ d))) ↔
      (d ≠ [] ∧ ∀ s ∈ d, s = "+" ∨ s = "-") := by
  constructor
  · rintro (⟨hlen, hp, hm⟩ | ⟨hlen, hpm⟩)
    · obtain ⟨a, b, rfl⟩ := List.length_eq_two.mp hlen
      have hp2 : a = "+" ∨ b = "+" := by
        rcases List.mem_cons.mp hp with h | h
        · exact Or.inl h.symm
        · exact Or.inr (List.mem_singleton.mp h).symm
      have hm2 : a = "-" ∨ b = "-" := by
        rcases List.mem_cons.mp hm with h | h
        · exact Or.inl h.symm
        · exact Or.inr (List.mem_singleton.mp h).symm
      refine ⟨by simp, ?_⟩
      intro s hs
      have hs2 : s = a ∨ s = b := by simpa using hs
      rcases hp2 with h1 | h1 <;> rcases hm2 with h2 | h2
      · exact absurd (h1.symm.trans h2) (by decide)
      · rcases hs2 with rfl | rfl
        · exact Or.inl h1
        · exact Or.inr h2
      · rcases hs2 with rfl | rfl
        · exact Or.inr h2
        · exact Or.inl h1
      · exact absurd (h1.symm.trans h2) (by decide)
    · obtain ⟨a, rfl⟩ := List.length_eq_one.mp hlen
      have ha : a = "+" ∨ a = "-" := by
        rcases hpm with h | h
        · exact Or.inl (List.mem_singleton.mp h).symm
        · exact Or.inr (List.mem_singleton.mp h).symm
      refine ⟨by simp, ?_⟩
      intro s hs
      have hsa : s = a := by simpa using hs
      rw [hsa]
      exact ha
  · rintro ⟨hne, hall⟩
    match d with
    | [] => exact absurd rfl hne
    | [a] =>
      refine Or.inr ⟨rfl, ?_⟩
      rcases hall a (by simp) with h | h
      · exact Or.inl (by simp [h])
      · exact Or.inr (by simp [h])
    | [a, b] =>
      have hab : a ≠ b := by simpa using (List.nodup_cons.mp hd).1
      have hpm2 : "+" ∈ [a, b] ∧ "-" ∈ [a, b] := by
        rcases hall a (by simp) with h1 | h1 <;> rcases hall b (by simp) with h2 | h2
        · exact absurd (h1.trans h2.symm) hab
        · exact ⟨by simp [h1], by simp [h2]⟩
        · exact ⟨by simp [h2], by simp [h1]⟩
        · exact absurd (h1.trans h2.symm) hab
      exact Or.inl ⟨rfl, hpm2.1, hpm2.2⟩
    | a :: b :: c :: t =>
      exfalso
      have hnd := hd
      simp only [List.nodup_cons, List.mem_cons] at hnd
      have hab : a ≠ b := fun he => hnd.1 (Or.inl he)
      have hac : a ≠ c := fun he => hnd.1 (Or.inr (Or.inl he))
      have hbc : b ≠ c := fun he => hnd.2.1 (Or.inl he)
      rcases hall a (by simp) with h1 | h1 <;>
        rcases hall b (by simp) with h2 | h2 <;>
        rcases hall c (by simp) with h3 | h3 <;>
        simp_all

/-- The check pair of `__is_bed6_like` on the deduplicated strand list holds
exactly when the raw list is nonempty with all values in the two signs. -/
theorem dedup_pm_iff (l : List String) :
    ((l.dedup.length = 2 ∧ "+" ∈ l.dedup ∧ "-" ∈ l.dedup) ∨
     (l.dedup.length = 1 ∧ ("+" ∈ l.dedup ∨ "-" ∈ l.dedup))) ↔
      (l ≠ [] ∧ ∀ s ∈ l, s = "+" ∨ s = "-") := by
  rw [nodup_pm_iff l.dedup l.nodup_dedup]
  constructor
  · rintro ⟨h1, h2⟩
    refine ⟨fun h0 => h1 (by simp [h0]), fun s hs => h2 s (List.mem_dedup.mpr hs)⟩
  · rintro ⟨h1, h2⟩
    refine ⟨fun h0 => h1 ((List.dedup_eq_nil _).mp h0), fun s hs => h2 s (List.mem_dedup.mp hs)⟩

/-- `__is_bed6_like` holds exactly when the 99-line scan succeeds with at
least one collected strand value and all collected values among the two
signs. -/
theorem is_bed6_like_iff (lines : List RefLine) :
    is_bed6_like lines = true ↔
      ∃ ss, collectStrands 0 lines = some ss ∧ ss ≠ [] ∧
        ∀ s ∈ ss, s = "+" ∨ s = "-" := by
  unfold is_bed6_like
  cases hcs : collectStrands 0 lines with
  | none => simp
  | some ss =>
    simp only []
    constructor
    · intro h
      refine ⟨ss, rfl, ?_⟩
      rw [← dedup_pm_iff]
      by_cases h1 : ss.dedup.length = 2 ∧ "+" ∈ ss.dedup ∧ "-" ∈ ss.dedup
      · exact Or.inl h1
      · by_cases h2 : ss.dedup.length = 1 ∧ ("+" ∈ ss.dedup ∨ "-" ∈ ss.dedup)
        · exact Or.inr h2
        · rw [if_neg h1, if_neg h2] at h
          exact absurd h (by simp)
    · rintro ⟨ss2, hss2, hne, hall⟩
      have hss : ss2 = ss := (Option.some.inj hss2).symm
      subst hss
      have hcond := (dedup_pm_iff ss2).mpr ⟨hne, hall⟩
      by_cases hc1 : ss2.dedup.length = 2 ∧ "+" ∈ ss2.dedup ∧ "-" ∈ ss2.dedup
      · rw [if_pos hc1]
      · rcases hcond with h1 | h2
        · exact absurd h1 hc1
        · rw [if_neg hc1, if_pos h2]

/-- The strand assigned to every built interval: the line's 6th column when
`__is_bed6_like` accepts the file, `+` otherwise. -/
theorem create_bed6_strand_map (lines : List RefLine) (pos anno_by : String)
    (max_distance : Int) (source name_col : String) :
    (create_bed6 lines pos anno_by max_distance source name_col).map Bed6.strand =
      (lines.filter (fun l => !l.comment)).map
        (fun l => if is_bed6_like lines then l.fields.getD 5 "" else "+") := by
  unfold create_bed6
  rw [List.map_map]
  rfl

/-- C7 amended: per-line strand values are used exactly when the scan of the
first 99 physical lines (comment lines counted toward the limit) finds no
short non-comment line, collects at least one 6th-column value, and all
collected values are among the two signs; in every other case every built
interval gets strand `+` (and when per-line values are used, lines beyond the
scanned prefix contribute their 6th column verbatim, whatever it is). -/
theorem C7_amended_strand_use_condition :
    (∀ (lines : List RefLine) (pos anno_by : String) (max_distance : Int)
        (source name_col : String),
      (create_bed6 lines pos anno_by max_distance source name_col).map Bed6.strand =
        (lines.filter (fun l => !l.comment)).map
          (fun l => if is_bed6_like lines then l.fields.getD 5 "" else "+")) ∧
    (∀ lines : List RefLine,
      is_bed6_like lines = true ↔
        ∃ ss, collectStrands 0 lines = some ss ∧ ss ≠ [] ∧
          ∀ s ∈ ss, s = "+" ∨ s = "-") :=
  ⟨create_bed6_strand_map, is_bed6_like_iff⟩

/-- Splitting a list around an explicit separator splits on it. -/
theorem splitCharAux_append_sep (sep : Char) (a b : List Char) :
    splitCharAux sep (a ++ sep :: b) =
      ((splitCharAux sep a).1, (splitCharAux sep a).2 ++ splitChar sep b) := by
  induction a with
  | nil => simp [splitCharAux, splitChar]
  | cons c a ih =>
    by_cases hc : c = sep
    · simp [splitCharAux, hc, ih, splitChar]
    · simp [splitCharAux, hc, ih]

/-- A list without the separator is a single chunk. -/
theorem splitCharAux_not_mem (sep : Char) (a : List Char) (h : sep ∉ a) :
    splitCharAux sep a = (a, []) := by
  induction a with
  | nil => rfl
  | cons c a ih =>
    rw [List.mem_cons] at h
    push_neg at h
    have hc : c ≠ sep := fun he => h.1 he.symm
    simp [splitCharAux, hc, ih h.2]

/-- A separator-free prefix stays inside the first chunk. -/
theorem splitCharAux_append_not_mem (sep : Char) (a b : List Char) (h : sep ∉ a) :
    splitCharAux sep (a ++ b) =
      (a ++ (splitCharAux sep b).1, (splitCharAux sep b).2) := by
  induction a with
  | nil => simp
  | cons c a ih =>
    rw [List.mem_cons] at h
    push_neg at h
    have hc : c ≠ sep := fun he => h.1 he.symm
    simp [splitCharAux, hc, ih h.2]

/-- `splitChar` distributes over an explicit separator. -/
theorem splitChar_append_sep (sep : Char) (a b : List Char) :
    splitChar sep (a ++ sep :: b) = splitChar sep a ++ splitChar sep b := by
  unfold splitChar
  rw [splitCharAux_append_sep]
  rfl

/-- `stripParen` of a parenthesis-free text followed by `(` is that text. -/
theorem stripParen_prefix (src rest : List Char) (h : '(' ∉ src) :
    stripParen (src ++ '(' :: rest) = src := by
  unfold stripParen
  rw [splitCharAux_append_not_mem _ _ _ h]
  simp [splitCharAux]

/-- `stripParen` of a parenthesis-free text is the text. -/
theorem stripParen_of_not_mem (t : List Char) (h : '(' ∉ t) : stripParen t = t := by
  unfold stripParen
  rw [splitCharAux_not_mem _ _ h]

/-- Characters of a concatenation. -/
theorem toList_append (s t : String) : (s ++ t).toList = s.toList ++ t.toList := by
  simp [String.toList]

/-- Rebuilding a string from its characters. -/
theorem mk_toList (s : String) : String.mk s.toList = s := rfl

/-- The characters of the label `src(inner)`. -/
theorem name_toList (src inner : String) :
    (src ++ "(" ++ inner ++ ")").toList = src.toList ++ '(' :: (inner.toList ++ [')']) := by
  rw [toList_append, toList_append, toList_append]
  simp

/-- Stripping the label `src(inner)` recovers a parenthesis-free `src`. -/
theorem stripParen_name (src inner : String) (h : '(' ∉ src.toList) :
    String.mk (stripParen (src ++ "(" ++ inner ++ ")").toList) = src := by
  rw [name_toList, stripParen_prefix _ _ h, mk_toList]

/-- The `;`-tokens of an appended cell value are the two token lists. -/
theorem tokens_append_val (v res : String) :
    splitChar ';' (v ++ ";" ++ res).toList =
      splitChar ';' v.toList ++ splitChar ';' res.toList := by
  have h : (v ++ ";" ++ res).toList = v.toList ++ ';' :: res.toList := by
    rw [toList_append, toList_append]
    simp
  rw [h, splitChar_append_sep]

/-- A token of some cell contributes its stripped form to `colSources`. -/
theorem mem_colSources (col : List (String × String)) (p : String × String)
    (hp : p ∈ col) (t : List Char) (ht : t ∈ splitChar ';' p.2.toList) :
    stripParen t ∈ colSources col := by
  unfold colSources
  exact List.mem_map.mpr
    ⟨t, List.mem_flatten.mpr ⟨splitChar ';' p.2.toList, List.mem_map.mpr ⟨p, hp, rfl⟩, ht⟩, rfl⟩

/-- Membership in `colSources` unpacked. -/
theorem colSources_mem_iff (col : List (String × String)) (x : List Char) :
    x ∈ colSources col ↔
      ∃ p ∈ col, ∃ t ∈ splitChar ';' p.2.toList, stripParen t = x := by
  unfold colSources
  simp only [List.mem_map, List.mem_flatten]
  constructor
  · rintro ⟨t, ⟨l, ⟨p, hp, rfl⟩, htl⟩, rfl⟩
    exact ⟨p, hp, t, htl, rfl⟩
  · rintro ⟨p, hp, t, htl, rfl⟩
    exact ⟨t, ⟨_, ⟨p, hp, rfl⟩, htl⟩, rfl⟩

/-- A found association belongs to the list. -/
theorem lookup_mem {α : Type} (l : List (String × α)) (a : String) (v : α)
    (h : l.lookup a = some v) : (a, v) ∈ l := by
  induction l with
  | nil => simp [List.lookup] at h
  | cons c l ih =>
    obtain ⟨ck, cv⟩ := c
    by_cases hc : a = ck
    · have hbeq : (a == ck) = true := beq_iff_eq.mpr hc
      simp [List.lookup, hbeq] at h
      rw [hc, h]
      exact List.mem_cons_self _ _
    · have hbeq : (a == ck) = false := beq_eq_false_iff_ne.mpr hc
      simp [List.lookup, hbeq] at h
      exact List.mem_cons_of_mem _ (ih h)

/-- With duplicate-free keys, every association is the one found. -/
theorem lookup_of_mem_nodupKeys {α : Type} (l : List (String × α)) (p : String × α)
    (hp : p ∈ l) (hnd : (l.map Prod.fst).Nodup) : l.lookup p.1 = some p.2 := by
  induction l with
  | nil => simp at hp
  | cons c l ih =>
    obtain ⟨ck, cv⟩ := c
    simp only [List.map_cons, List.nodup_cons] at hnd
    rcases List.mem_cons.mp hp with heq | hp2
    · rw [heq]
      simp [List.lookup]
    · have hne : p.1 ≠ ck := by
        intro he
        exact hnd.1 (by rw [← he]; exact List.mem_map.mpr ⟨p, hp2, rfl⟩)
      have hbeq : (p.1 == ck) = false := beq_eq_false_iff_ne.mpr hne
      simp [List.lookup, hbeq]
      exact ih hp2 hnd.2

/-- A key of the association list has an association. -/
theorem mem_of_key_mem {α : Type} (col : List (String × α)) (k : String)
    (h : k ∈ col.map Prod.fst) : ∃ v, (k, v) ∈ col := by
  obtain ⟨p, hp, hk⟩ := List.mem_map.mp h
  exact ⟨p.2, by rw [← hk, Prod.mk.eta]; exact hp⟩

/-- Looking up through a keyed update rewrites only the matching key's value. -/
theorem lookup_map_update {α : Type} (l : List (String × α)) (rt k : String) (f : α → α) :
    (l.map (fun c => if c.1 = k then (c.1, f c.2) else c)).lookup rt =
      (l.lookup rt).map (fun v => if rt = k then f v else v) := by
  induction l with
  | nil => rfl
  | cons c l ih =>
    obtain ⟨ck, cv⟩ := c
    simp only [List.map_cons]
    by_cases hck : ck = k <;> by_cases hcr : rt = ck
    · have hrk : rt = k := by rw [hcr, hck]
      have hbeq : (rt == ck) = true := beq_iff_eq.mpr hcr
      have hbeq2 : (k == ck) = true := beq_iff_eq.mpr hck.symm
      rw [if_pos hck]
      simp [List.lookup, hbeq, hbeq2, hrk]
    · have hbeq : (rt == ck) = false := beq_eq_false_iff_ne.mpr hcr
      rw [if_pos hck]
      simp [List.lookup, hbeq, ih]
    · have hrk : ¬rt = k := by rw [hcr]; exact hck
      have hbeq : (rt == ck) = true := beq_iff_eq.mpr hcr
      rw [if_neg hck]
      simp [List.lookup, hbeq, hrk]
    · have hbeq : (rt == ck) = false := beq_eq_false_iff_ne.mpr hcr
      rw [if_neg hck]
      simp [List.lookup, hbeq, ih]

/-- A key found on the left is found in the concatenation. -/
theorem lookup_append_left {α : Type} (l1 l2 : List (String × α)) (a : String) (v : α)
    (h : l1.lookup a = some v) : (l1 ++ l2).lookup a = some v := by
  induction l1 with
  | nil => simp [List.lookup] at h
  | cons c l ih =>
    obtain ⟨ck, cv⟩ := c
    by_cases hc : a = ck
    · have hbeq : (a == ck) = true := beq_iff_eq.mpr hc
      simp [List.lookup, hbeq] at h ⊢
      exact h
    · have hbeq : (a == ck) = false := beq_eq_false_iff_ne.mpr hc
      simp [List.lookup, hbeq] at h ⊢
      exact ih h

/-- A key absent on the left is found in the appended singleton. -/
theorem lookup_append_self {α : Type} (l : List (String × α)) (k : String) (v : α)
    (h : l.lookup k = none) : (l ++ [(k, v)]).lookup k = some v := by
  induction l with
  | nil => simp [List.lookup]
  | cons c l ih =>
    obtain ⟨ck, cv⟩ := c
    by_cases hc : k = ck
    · have hbeq : (k == ck) = true := beq_iff_eq.mpr hc
      simp only [List.lookup, hbeq] at h
      exact absurd h (by simp)
    · have hbeq : (k == ck) = false := beq_eq_false_iff_ne.mpr hc
      simp only [List.lookup, hbeq] at h
      simp only [List.cons_append, List.lookup, hbeq]
      exact ih h

/-- `__anno_done` in SOURCE mode is token presence. -/
theorem anno_done_source_iff (b : BaseTable) (rt src : String) :
    anno_done b rt src "SOURCE" = true ↔ tokenIn b rt src := by
  unfold anno_done tokenIn
  cases h : b.cols.lookup rt with
  | none => simp
  | some col => simp [List.contains, List.elem_iff]

/-- `__anno_done` outside SOURCE mode is column existence. -/
theorem anno_done_other (b : BaseTable) (rt src ab : String) (hab : ab ≠ "SOURCE") :
    anno_done b rt src ab = true ↔ (b.cols.lookup rt).isSome = true := by
  unfold anno_done
  cases h : b.cols.lookup rt with
  | none => simp
  | some col => simp [hab]

/-- A done row's column exists. -/
theorem anno_done_isSome (b : BaseTable) (rt src ab : String)
    (h : anno_done b rt src ab = true) : (b.cols.lookup rt).isSome = true := by
  unfold anno_done at h
  cases hc : b.cols.lookup rt with
  | none => rw [hc] at h; simp at h
  | some col => simp

/-- Column initialization keeps the intervals. -/
theorem initCol_regions (b : BaseTable) (rt : String) : (initCol b rt).regions = b.regions := by
  unfold initCol
  split <;> rfl

/-- An existing column makes initialization a no-op. -/
theorem initCol_of_isSome (b : BaseTable) (rt : String)
    (h : (b.cols.lookup rt).isSome = true) : initCol b rt = b := by
  unfold initCol
  rw [if_pos h]

/-- After initialization the column exists. -/
theorem initCol_lookup_self (b : BaseTable) (rt : String) :
    ((initCol b rt).cols.lookup rt).isSome = true := by
  unfold initCol
  by_cases h : (b.cols.lookup rt).isSome
  · rw [if_pos h]
    exact h
  · rw [if_neg h]
    have hn : b.cols.lookup rt = none := Option.not_isSome_iff_eq_none.mp h
    show ((b.cols ++ [(rt, _)]).lookup rt).isSome = true
    rw [lookup_append_self _ _ _ hn]
    rfl

/-- Initialization does not change any existing column. -/
theorem initCol_lookup_other (b : BaseTable) (rt a : String) (col : List (String × String))
    (h : b.cols.lookup a = some col) : (initCol b rt).cols.lookup a = some col := by
  unfold initCol
  split
  · exact h
  · exact lookup_append_left _ _ _ _ h

/-- A keyed write keeps the column's keys. -/
theorem applyWrite_keys (col : List (String × String)) (k v : String) :
    (applyWrite col k v).map Prod.fst = col.map Prod.fst := by
  unfold applyWrite
  rw [List.map_map]
  apply List.map_congr_left
  intro p _
  by_cases h : p.1 = k <;> simp [h]

/-- The written association is present when the key exists. -/
theorem applyWrite_mem_self (col : List (String × String)) (k v : String)
    (h : ∃ v0, (k, v0) ∈ col) : (k, v) ∈ applyWrite col k v := by
  obtain ⟨v0, h0⟩ := h
  unfold applyWrite
  exact List.mem_map.mpr ⟨(k, v0), h0, by simp⟩

/-- Associations under other keys survive a keyed write. -/
theorem applyWrite_mem_other (col : List (String × String)) (k v : String)
    (p : String × String) (hp : p ∈ col) (hne : p.1 ≠ k) : p ∈ applyWrite col k v := by
  unfold applyWrite
  exact List.mem_map.mpr ⟨p, hp, by simp [hne]⟩

/-- Merging keeps the intervals. -/
theorem mergeOne_regions (b : BaseTable) (rt nh : String)
    (g : String × List (String × Int)) : (mergeOne b rt nh g).regions = b.regions := rfl

/-- The columns after one merge step, by key. -/
theorem mergeOne_lookup (b : BaseTable) (rt nh : String)
    (g : String × List (String × Int)) (a : String) :
    (mergeOne b rt nh g).cols.lookup a =
      (b.cols.lookup a).map (fun col =>
        if a = rt then
          applyWrite col g.1
            (combineAnno ((((b.cols.lookup rt).getD []).lookup g.1).getD "NA")
              (selectResult nh g.2))
        else col) := by
  unfold mergeOne
  exact lookup_map_update b.cols a rt _

/-- A well-formed table stays well-formed through initialization. -/
theorem WF_initCol (b : BaseTable) (rt : String) (h : b.WF) : (initCol b rt).WF := by
  obtain ⟨h1, h2⟩ := h
  unfold initCol
  split
  · exact ⟨h1, h2⟩
  · refine ⟨?_, h2⟩
    intro c hc
    rcases List.mem_append.mp hc with hc | hc
    · exact h1 c hc
    · have hcv : c = (rt, b.regions.map (fun r => (mkId r, "NA"))) := by simpa using hc
      rw [hcv]
      simp [List.map_map]

/-- A well-formed table stays well-formed through a merge step. -/
theorem WF_mergeOne (b : BaseTable) (rt nh : String)
    (g : String × List (String × Int)) (h : b.WF) : (mergeOne b rt nh g).WF := by
  obtain ⟨h1, h2⟩ := h
  refine ⟨?_, h2⟩
  intro c hc
  unfold mergeOne at hc
  simp only [List.mem_map] at hc
  obtain ⟨c0, hc0, rfl⟩ := hc
  by_cases hk : c0.1 = rt
  · rw [if_pos hk]
    show (applyWrite c0.2 g.1 _).map Prod.fst = _
    rw [applyWrite_keys]
    exact h1 c0 hc0
  · rw [if_neg hk]
    exact h1 c0 hc0

/-- Token presence survives a merge step when the source label is clean. -/
theorem tokenIn_mergeOne (b : BaseTable) (rt2 nh : String)
    (g : String × List (String × Int)) (rt src : String)
    (hwf : b.WF) (hsrc : cleanSource src) (ht : tokenIn b rt src) :
    tokenIn (mergeOne b rt2 nh g) rt src := by
  obtain ⟨col, hcol, hmem⟩ := ht
  unfold tokenIn
  rw [mergeOne_lookup, hcol]
  by_cases hrr : rt = rt2
  · refine ⟨_, rfl, ?_⟩
    beta_reduce
    rw [if_pos hrr]
    obtain ⟨p, hp, t, htl, hst⟩ := (colSources_mem_iff col src.toList).mp hmem
    by_cases hpk : p.1 = g.1
    · have hkeys : col.map Prod.fst = b.regions.map mkId :=
        hwf.1 (rt, col) (lookup_mem _ _ _ hcol)
      have hnd : (col.map Prod.fst).Nodup := by rw [hkeys]; exact hwf.2
      have hlk : col.lookup p.1 = some p.2 := lookup_of_mem_nodupKeys col p hp hnd
      have hvNA : p.2 ≠ "NA" := by
        intro hNA
        rw [hNA] at htl
        have hsplit : splitChar ';' ("NA" : String).toList = [['N', 'A']] := rfl
        rw [hsplit] at htl
        have ht2 : t = ['N', 'A'] := by simpa using htl
        rw [ht2] at hst
        have hstr : stripParen ['N', 'A'] = ['N', 'A'] := rfl
        rw [hstr] at hst
        have hsrcNA : src = "NA" := by
          have hmk := congrArg String.mk hst
          rw [mk_toList] at hmk
          exact hmk.symm
        exact hsrc.2.2 hsrcNA
      have hanno : (((b.cols.lookup rt2).getD []).lookup g.1).getD "NA" = p.2 := by
        rw [← hrr, hcol]
        show (col.lookup g.1).getD "NA" = p.2
        rw [← hpk, hlk]
        rfl
      have hnewval :
          combineAnno ((((b.cols.lookup rt2).getD []).lookup g.1).getD "NA")
              (selectResult nh g.2) =
            p.2 ++ ";" ++ selectResult nh g.2 := by
        rw [hanno]
        unfold combineAnno
        rw [if_neg hvNA]
      have hentry : (g.1,
          combineAnno ((((b.cols.lookup rt2).getD []).lookup g.1).getD "NA")
            (selectResult nh g.2)) ∈
          applyWrite col g.1
            (combineAnno ((((b.cols.lookup rt2).getD []).lookup g.1).getD "NA")
              (selectResult nh g.2)) := by
        apply applyWrite_mem_self
        exact ⟨p.2, by rw [← hpk, Prod.mk.eta]; exact hp⟩
      have htok : t ∈ splitChar ';'
          (combineAnno ((((b.cols.lookup rt2).getD []).lookup g.1).getD "NA")
            (selectResult nh g.2)).toList := by
        rw [hnewval, tokens_append_val]
        exact List.mem_append_left _ htl
      rw [← hst]
      exact mem_colSources _ _ hentry t htok
    · have hp2 : p ∈ applyWrite col g.1
          (combineAnno ((((b.cols.lookup rt2).getD []).lookup g.1).getD "NA")
            (selectResult nh g.2)) :=
        applyWrite_mem_other col g.1 _ p hp hpk
      rw [← hst]
      exact mem_colSources _ p hp2 t htl
  · refine ⟨_, rfl, ?_⟩
    beta_reduce
    rw [if_neg hrr]
    exact hmem

/-- Folding merge steps keeps the intervals. -/
theorem fold_mergeOne_regions (rt2 nh : String)
    (gs : List (String × List (String × Int))) :
    ∀ b : BaseTable,
      (gs.foldl (fun acc g => mergeOne acc rt2 nh g) b).regions = b.regions := by
  induction gs with
  | nil => intro b; rfl
  | cons g gs ih =>
    intro b
    rw [List.foldl_cons, ih, mergeOne_regions]

/-- A merge step keeps column existence. -/
theorem isSome_mergeOne (b : BaseTable) (rt2 nh : String)
    (g : String × List (String × Int)) (rt : String)
    (h : (b.cols.lookup rt).isSome = true) :
    ((mergeOne b rt2 nh g).cols.lookup rt).isSome = true := by
  rw [mergeOne_lookup]
  obtain ⟨col, hcol⟩ := Option.isSome_iff_exists.mp h
  rw [hcol]
  rfl

/-- Folding merge steps preserves well-formedness, column existence and clean
token presence. -/
theorem fold_mergeOne_props (rt2 nh : String)
    (gs : List (String × List (String × Int))) :
    ∀ b : BaseTable, b.WF →
      (gs.foldl (fun acc g => mergeOne acc rt2 nh g) b).WF ∧
      (∀ rt, (b.cols.lookup rt).isSome = true →
        (((gs.foldl (fun acc g => mergeOne acc rt2 nh g) b).cols.lookup rt).isSome = true)) ∧
      (∀ rt src, cleanSource src → tokenIn b rt src →
        tokenIn (gs.foldl (fun acc g => mergeOne acc rt2 nh g) b) rt src) := by
  induction gs with
  | nil =>
    intro b hwf
    exact ⟨hwf, fun rt h => h, fun rt src _ h => h⟩
  | cons g gs ih =>
    intro b hwf
    rw [List.foldl_cons]
    obtain ⟨hw, hs, htk⟩ := ih (mergeOne b rt2 nh g) (WF_mergeOne b rt2 nh g hwf)
    refine ⟨hw, ?_, ?_⟩
    · intro rt h
      exact hs rt (isSome_mergeOne b rt2 nh g rt h)
    · intro rt src hclean ht
      exact htk rt src hclean (tokenIn_mergeOne b rt2 nh g rt src hwf hclean ht)

/-- The annotation step keeps the intervals. -/
theorem annotate_row_regions (files : String → List RefLine) (b : BaseTable) (row : DbRow) :
    (annotate_row files b row).regions = b.regions := by
  unfold annotate_row
  split
  · rfl
  · rw [fold_mergeOne_regions, initCol_regions]

/-- The annotation step preserves well-formedness. -/
theorem WF_annotate_row (files : String → List RefLine) (b : BaseTable) (row : DbRow)
    (hwf : b.WF) : (annotate_row files b row).WF := by
  unfold annotate_row
  split
  · exact hwf
  · exact (fold_mergeOne_props row.region_type row.n_hits _ _
      (WF_initCol b row.region_type hwf)).1

/-- The annotation step preserves column existence. -/
theorem isSome_annotate_row (files : String → List RefLine) (b : BaseTable) (row : DbRow)
    (rt : String) (hwf : b.WF) (h : (b.cols.lookup rt).isSome = true) :
    ((annotate_row files b row).cols.lookup rt).isSome = true := by
  unfold annotate_row
  split
  · exact h
  · apply (fold_mergeOne_props row.region_type row.n_hits _ _
      (WF_initCol b row.region_type hwf)).2.1 rt
    obtain ⟨col, hcol⟩ := Option.isSome_iff_exists.mp h
    rw [initCol_lookup_other b row.region_type rt col hcol]
    rfl

/-- The annotation step preserves clean token presence. -/
theorem tokenIn_annotate_row (files : String → List RefLine) (b : BaseTable) (row : DbRow)
    (rt src : String) (hwf : b.WF) (hclean : cleanSource src) (ht : tokenIn b rt src) :
    tokenIn (annotate_row files b row) rt src := by
  unfold annotate_row
  split
  · exact ht
  · apply (fold_mergeOne_props row.region_type row.n_hits _ _
      (WF_initCol b row.region_type hwf)).2.2 rt src hclean
    obtain ⟨col, hcol, hmem⟩ := ht
    exact ⟨col, initCol_lookup_other b row.region_type rt col hcol, hmem⟩

/-- The base id of every annotation entry is a region identifier. -/
theorem rowEntries_key (files : String → List RefLine) (regions : List Region)
    (row : DbRow) (x : String × String × Int)
    (hx : x ∈ rowEntries files regions row) : ∃ r ∈ regions, x.1 = mkId r := by
  unfold rowEntries at hx
  simp only [List.mem_map, List.mem_filter] at hx
  obtain ⟨h, ⟨hh, _⟩, rfl⟩ := hx
  simp only [intersect, List.mem_flatten, List.mem_map] at hh
  obtain ⟨l, ⟨r, hr, rfl⟩, hmem⟩ := hh
  obtain ⟨x2, _, rfl⟩ := List.mem_map.mp hmem
  exact ⟨r, hr, rfl⟩

/-- Every bed6 name built outside NAME mode is the source followed by a
parenthesized suffix. -/
theorem create_bed6_name_shape (lines : List RefLine) (pos anno_by : String)
    (max_distance : Int) (source name_col : String) (hab : anno_by ≠ "NAME")
    (x : Bed6) (hx : x ∈ create_bed6 lines pos anno_by max_distance source name_col) :
    ∃ inner : String, x.name = source ++ "(" ++ inner ++ ")" := by
  unfold create_bed6 at hx
  simp only [List.mem_map] at hx
  obtain ⟨l0, _, rfl⟩ := hx
  simp only [create_bed6_line, resolve_name]
  rw [if_neg hab]
  exact ⟨_, rfl⟩

/-- The hit entry fields, unfolded. -/
theorem hitEntry_snd_fst (h : Hit) :
    (hitEntry h).2.1 =
      String.mk (stripParen h.b.name.toList) ++ "(" ++ toString (hitEntry h).2.2 ++ ")" := rfl

/-- Every annotation entry of a SOURCE-mode row with a parenthesis-free
source is formatted `source(distance)`. -/
theorem rowEntries_shape (files : String → List RefLine) (regions : List Region)
    (row : DbRow) (hab : row.anno_by = "SOURCE") (hsrc : '(' ∉ row.source.toList)
    (x : String × String × Int) (hx : x ∈ rowEntries files regions row) :
    x.2.1 = row.source ++ "(" ++ toString x.2.2 ++ ")" := by
  unfold rowEntries at hx
  simp only [List.mem_map, List.mem_filter] at hx
  obtain ⟨h, ⟨hh, _⟩, rfl⟩ := hx
  have hb : h.b ∈ create_bed6 (files row.filename) row.distance_to row.anno_by
      row.max_distance row.source row.name_col := by
    simp only [intersect, List.mem_flatten, List.mem_map] at hh
    obtain ⟨l, ⟨r, hr, rfl⟩, hmem⟩ := hh
    obtain ⟨x2, hx2, rfl⟩ := List.mem_map.mp hmem
    exact (List.mem_filter.mp hx2).1
  obtain ⟨inner, hname⟩ := create_bed6_name_shape _ _ _ _ _ _
    (by rw [hab]; decide) h.b hb
  rw [hitEntry_snd_fst, hname, stripParen_name _ _ hsrc]

/-- The grouping fold preserves any per-hit property with nonempty groups. -/
theorem foldl_addHit_inv (Q : String → (String × Int) → Prop)
    (rest : List (String × String × Int)) :
    ∀ acc : List (String × List (String × Int)),
      (∀ g ∈ acc, g.2 ≠ [] ∧ ∀ h ∈ g.2, Q g.1 h) →
      (∀ x ∈ rest, Q x.1 x.2) →
      ∀ g ∈ rest.foldl (fun d x => addHit d x.1 x.2) acc, g.2 ≠ [] ∧ ∀ h ∈ g.2, Q g.1 h := by
  induction rest with
  | nil =>
    intro acc hacc _ g hg
    exact hacc g hg
  | cons x rest ih =>
    intro acc hacc hrest g hg
    rw [List.foldl_cons] at hg
    refine ih (addHit acc x.1 x.2) ?_ (fun y hy => hrest y (List.mem_cons_of_mem _ hy)) g hg
    intro g0 hg0
    unfold addHit at hg0
    by_cases hany : acc.any (fun p => p.1 = x.1)
    · rw [if_pos hany] at hg0
      obtain ⟨g1, hg1, rfl⟩ := List.mem_map.mp hg0
      by_cases hk : g1.1 = x.1
      · rw [if_pos hk]
        obtain ⟨_, hQ⟩ := hacc g1 hg1
        refine ⟨by simp, ?_⟩
        intro h hh
        rcases List.mem_append.mp hh with hh | hh
        · exact hQ h hh
        · have hx2 : h = x.2 := by simpa using hh
          rw [hx2, hk]
          exact hrest x (List.mem_cons_self _ _)
      · rw [if_neg hk]
        exact hacc g1 hg1
    · rw [if_neg hany] at hg0
      rcases List.mem_append.mp hg0 with hg1 | hg1
      · exact hacc g0 hg1
      · have hg0v : g0 = (x.1, [x.2]) := by simpa using hg1
        rw [hg0v]
        refine ⟨by simp, ?_⟩
        intro h hh
        have hx2 : h = x.2 := by simpa using hh
        rw [hx2]
        exact hrest x (List.mem_cons_self _ _)

/-- Every group of `intersect_dict` is nonempty and made of input hits. -/
theorem groupHits_inv (l : List (String × String × Int))
    (Q : String → (String × Int) → Prop) (hQ : ∀ x ∈ l, Q x.1 x.2) :
    ∀ g ∈ groupHits l, g.2 ≠ [] ∧ ∀ h ∈ g.2, Q g.1 h :=
  foldl_addHit_inv Q l [] (by simp) hQ

/-- Grouping a nonempty hit list is nonempty. -/
theorem groupHits_ne_nil (l : List (String × String × Int)) (hl : l ≠ []) :
    groupHits l ≠ [] := by
  have hlen : ∀ (rest : List (String × String × Int))
      (acc : List (String × List (String × Int))),
      acc.length ≤ (rest.foldl (fun d x => addHit d x.1 x.2) acc).length := by
    intro rest
    induction rest with
    | nil => intro acc; exact le_refl _
    | cons x rest ih =>
      intro acc
      rw [List.foldl_cons]
      refine le_trans ?_ (ih (addHit acc x.1 x.2))
      unfold addHit
      split
      · simp
      · simp
  match l with
  | x :: rest =>
    intro h0
    unfold groupHits at h0
    rw [List.foldl_cons] at h0
    have h2 := hlen rest (addHit [] x.1 x.2)
    rw [h0] at h2
    simp [addHit] at h2

/-- A join starts with its first item. -/
theorem pyJoin_head_toList (a : String) (rest : List String) :
    ∃ tail, (pyJoin ";" (a :: rest)).toList = a.toList ++ tail := by
  cases rest with
  | nil => exact ⟨[], by simp [pyJoin]⟩
  | cons b r =>
    refine ⟨(";" ++ pyJoin ";" (b :: r)).toList, ?_⟩
    have hjoin : pyJoin ";" (a :: b :: r) = a ++ ";" ++ pyJoin ";" (b :: r) := rfl
    rw [hjoin, toList_append, toList_append, toList_append]
    simp

/-- A separator-free, parenthesis-free text followed by `(` gives a token
stripping back to the text. -/
theorem token_of_prefix (src rest : List Char) (hs : ';' ∉ src) (hp : '(' ∉ src) :
    ∃ t ∈ splitChar ';' (src ++ '(' :: rest), stripParen t = src := by
  refine ⟨(splitCharAux ';' (src ++ '(' :: rest)).1, List.mem_cons_self _ _, ?_⟩
  rw [splitCharAux_append_not_mem _ _ _ hs]
  have haux : splitCharAux ';' ('(' :: rest) =
      ('(' :: (splitCharAux ';' rest).1, (splitCharAux ';' rest).2) := by
    simp only [splitCharAux]
    rw [if_neg (by decide)]
  rw [haux]
  exact stripParen_prefix _ _ hp

/-- The selected result string of clean `source(distance)` hits contains a
token stripping back to the source. -/
theorem selectResult_token (src nh : String) (hits : List (String × Int))
    (hne : hits ≠ [])
    (hshape : ∀ h ∈ hits, h.1 = src ++ "(" ++ toString h.2 ++ ")")
    (hsemi : ';' ∉ src.toList) (hparen : '(' ∉ src.toList) :
    ∃ t ∈ splitChar ';' (selectResult nh hits).toList, stripParen t = src.toList := by
  have hperm := List.perm_insertionSort absLe hits
  have hsne : sortHits hits ≠ [] := by
    intro h0
    have hp2 : ([] : List (String × Int)).Perm hits := by
      rw [← h0]
      exact hperm
    exact hne hp2.nil_eq.symm
  obtain ⟨f0, fs, hsort⟩ := List.exists_cons_of_ne_nil hsne
  have hsort2 : List.insertionSort absLe hits = f0 :: fs := hsort
  have hf0 : f0 ∈ hits := hperm.subset (by rw [hsort2]; exact List.mem_cons_self _ _)
  have hshape0 := hshape f0 hf0
  unfold selectResult
  by_cases hall : nh = "ALL"
  · rw [if_pos hall, hsort, List.map_cons]
    obtain ⟨tail, htail⟩ := pyJoin_head_toList f0.1 (fs.map Prod.fst)
    have hfull : (pyJoin ";" (f0.1 :: fs.map Prod.fst)).toList =
        src.toList ++ '(' :: (((toString f0.2).toList ++ [')']) ++ tail) := by
      rw [htail, hshape0, name_toList]
      simp
    rw [hfull]
    exact token_of_prefix src.toList _ hsemi hparen
  · rw [if_neg hall, hsort]
    show ∃ t ∈ splitChar ';' f0.1.toList, stripParen t = src.toList
    rw [hshape0, name_toList]
    exact token_of_prefix src.toList _ hsemi hparen

/-- The first merge of a nonempty, well-shaped group records the source
token. -/
theorem tokenIn_mergeOne_self (b : BaseTable) (rt nh : String)
    (g : String × List (String × Int)) (src : String)
    (hwf : b.WF) (hclean : cleanSource src)
    (hcol : (b.cols.lookup rt).isSome = true)
    (hkey : g.1 ∈ b.regions.map mkId)
    (hne : g.2 ≠ [])
    (hshape : ∀ h ∈ g.2, h.1 = src ++ "(" ++ toString h.2 ++ ")") :
    tokenIn (mergeOne b rt nh g) rt src := by
  obtain ⟨col, hcolv⟩ := Option.isSome_iff_exists.mp hcol
  obtain ⟨t, htmem, htstrip⟩ :=
    selectResult_token src nh g.2 hne hshape hclean.1 hclean.2.1
  have htok : t ∈ splitChar ';'
      (combineAnno ((col.lookup g.1).getD "NA") (selectResult nh g.2)).toList := by
    unfold combineAnno
    split
    · exact htmem
    · rw [tokens_append_val]
      exact List.mem_append_right _ htmem
  have hkeys : col.map Prod.fst = b.regions.map mkId :=
    hwf.1 (rt, col) (lookup_mem _ _ _ hcolv)
  have hentry : (g.1,
      combineAnno ((col.lookup g.1).getD "NA") (selectResult nh g.2)) ∈
      applyWrite col g.1
        (combineAnno ((col.lookup g.1).getD "NA") (selectResult nh g.2)) := by
    apply applyWrite_mem_self
    exact mem_of_key_mem col g.1 (by rw [hkeys]; exact hkey)
  unfold tokenIn
  rw [mergeOne_lookup, hcolv]
  refine ⟨_, rfl, ?_⟩
  beta_reduce
  rw [if_pos rfl]
  rw [← htstrip]
  exact mem_colSources _ _ hentry t htok

/-- A settled row's annotation step is the identity. -/
theorem rowSettled_stable (files : String → List RefLine) (b : BaseTable) (row : DbRow)
    (hs : rowSettled files b row) : annotate_row files b row = b := by
  obtain ⟨hcol, hdone⟩ := hs
  unfold annotate_row
  by_cases hd : anno_done b row.region_type row.source row.anno_by = true
  · rw [if_pos hd]
  · rw [if_neg hd]
    rcases hdone with hdone | hent
    · exact absurd hdone hd
    · rw [initCol_of_isSome b _ hcol]
      show (groupHits (rowEntries files b.regions row)).foldl
        (fun acc g => mergeOne acc row.region_type row.n_hits g) b = b
      rw [hent]
      rfl

/-- After its own annotation step a clean row is settled. -/
theorem rowSettled_after_self (files : String → List RefLine) (b : BaseTable) (row : DbRow)
    (hwf : b.WF) (hclean : cleanRow row) :
    rowSettled files (annotate_row files b row) row := by
  by_cases hd : anno_done b row.region_type row.source row.anno_by = true
  · have hres : annotate_row files b row = b := by
      unfold annotate_row
      rw [if_pos hd]
    rw [hres]
    exact ⟨anno_done_isSome b _ _ _ hd, Or.inl hd⟩
  · have hres : annotate_row files b row =
        (groupHits (rowEntries files (initCol b row.region_type).regions row)).foldl
          (fun acc g => mergeOne acc row.region_type row.n_hits g)
          (initCol b row.region_type) := by
      unfold annotate_row
      rw [if_neg hd]
    have hwf1 : (initCol b row.region_type).WF := WF_initCol b _ hwf
    have hcol1 : ((initCol b row.region_type).cols.lookup row.region_type).isSome = true :=
      initCol_lookup_self b _
    by_cases hent : rowEntries files (initCol b row.region_type).regions row = []
    · rw [hres, hent]
      show rowSettled files (initCol b row.region_type) row
      refine ⟨hcol1, Or.inr hent⟩
    · rw [hres]
      have hgne : groupHits (rowEntries files (initCol b row.region_type).regions row) ≠ [] :=
        groupHits_ne_nil _ hent
      obtain ⟨g, gs, hg⟩ := List.exists_cons_of_ne_nil hgne
      rw [hg, List.foldl_cons]
      have hfold := fold_mergeOne_props row.region_type row.n_hits gs
        (mergeOne (initCol b row.region_type) row.region_type row.n_hits g)
        (WF_mergeOne _ _ _ g hwf1)
      have hcolf : (((gs.foldl (fun acc g2 => mergeOne acc row.region_type row.n_hits g2)
          (mergeOne (initCol b row.region_type) row.region_type
            row.n_hits g)).cols.lookup row.region_type).isSome = true) :=
        hfold.2.1 row.region_type (isSome_mergeOne _ _ _ g _ hcol1)
      refine ⟨hcolf, ?_⟩
      by_cases hab : row.anno_by = "SOURCE"
      · have hcleansrc := hclean hab
        have hinv := groupHits_inv (rowEntries files (initCol b row.region_type).regions row)
          (fun k h => (k, h) ∈ rowEntries files (initCol b row.region_type).regions row)
          (fun x hx => by show (x.1, x.2) ∈ _; rw [Prod.mk.eta]; exact hx)
        have hgmem : g ∈ groupHits (rowEntries files (initCol b row.region_type).regions row) := by
          rw [hg]
          exact List.mem_cons_self _ _
        obtain ⟨hgne2, hgQ⟩ := hinv g hgmem
        obtain ⟨h0, hh0⟩ := List.exists_mem_of_ne_nil _ hgne2
        obtain ⟨r, hr, hkey⟩ := rowEntries_key files _ row (g.1, h0) (hgQ h0 hh0)
        have hkey2 : g.1 ∈ (initCol b row.region_type).regions.map mkId :=
          List.mem_map.mpr ⟨r, hr, hkey.symm⟩
        have hshape : ∀ h ∈ g.2, h.1 = row.source ++ "(" ++ toString h.2 ++ ")" := by
          intro h hh
          exact rowEntries_shape files _ row hab hcleansrc.2.1 (g.1, h) (hgQ h hh)
        have hest := tokenIn_mergeOne_self (initCol b row.region_type) row.region_type
          row.n_hits g row.source hwf1 hcleansrc hcol1 hkey2 hgne2 hshape
        left
        rw [hab, anno_done_source_iff]
        exact hfold.2.2 row.region_type row.source hcleansrc hest
      · left
        rw [anno_done_other _ _ _ _ hab]
        exact hcolf

/-- A settled row stays settled through any other annotation step. -/
theorem rowSettled_mono (files : String → List RefLine) (b : BaseTable)
    (row row2 : DbRow) (hwf : b.WF) (hclean : cleanRow row)
    (hs : rowSettled files b row) :
    rowSettled files (annotate_row files b row2) row := by
  obtain ⟨hcol, hdone⟩ := hs
  refine ⟨isSome_annotate_row files b row2 row.region_type hwf hcol, ?_⟩
  rcases hdone with hdone | hent
  · left
    by_cases hab : row.anno_by = "SOURCE"
    · rw [hab] at hdone ⊢
      rw [anno_done_source_iff] at hdone ⊢
      exact tokenIn_annotate_row files b row2 _ _ hwf (hclean hab) hdone
    · rw [anno_done_other _ _ _ _ hab] at hdone ⊢
      exact isSome_annotate_row files b row2 _ hwf hdone
  · right
    rw [annotate_row_regions]
    exact hent

/-- A settled row stays settled through a whole run. -/
theorem rowSettled_fold_mono (files : String → List RefLine) (rows : List DbRow) :
    ∀ (b : BaseTable) (row : DbRow), b.WF → cleanRow row → rowSettled files b row →
      rowSettled files (rows.foldl (annotate_row files) b) row := by
  induction rows with
  | nil =>
    intro b row _ _ hs
    exact hs
  | cons r rows ih =>
    intro b row hwf hclean hs
    rw [List.foldl_cons]
    exact ih _ row (WF_annotate_row files b r hwf) hclean
      (rowSettled_mono files b row r hwf hclean hs)

/-- A run preserves well-formedness. -/
theorem WF_fold (files : String → List RefLine) (rows : List DbRow) :
    ∀ b : BaseTable, b.WF → (rows.foldl (annotate_row files) b).WF := by
  induction rows with
  | nil =>
    intro b h
    exact h
  | cons r rows ih =>
    intro b h
    rw [List.foldl_cons]
    exact ih _ (WF_annotate_row files b r h)

/-- After one run over a clean database, every row is settled. -/
theorem all_settled (files : String → List RefLine) (rows : List DbRow) :
    ∀ b : BaseTable, b.WF → (∀ r ∈ rows, cleanRow r) →
      ∀ row ∈ rows, rowSettled files (rows.foldl (annotate_row files) b) row := by
  induction rows with
  | nil =>
    intro b _ _ row h
    simp at h
  | cons r0 rows ih =>
    intro b hwf hclean row hrow
    rw [List.foldl_cons]
    rcases List.mem_cons.mp hrow with heq | hrow2
    · rw [heq]
      apply rowSettled_fold_mono files rows (annotate_row files b r0) r0
        (WF_annotate_row files b r0 hwf) (hclean r0 (List.mem_cons_self _ _))
      exact rowSettled_after_self files b r0 hwf (hclean r0 (List.mem_cons_self _ _))
    · exact ih (annotate_row files b r0) (WF_annotate_row files b r0 hwf)
        (fun r hr => hclean r (List.mem_cons_of_mem _ hr)) row hrow2

/-- A run over settled rows is the identity. -/
theorem fold_settled_fixed (files : String → List RefLine) (rows : List DbRow) :
    ∀ b : BaseTable, (∀ row ∈ rows, rowSettled files b row) →
      rows.foldl (annotate_row files) b = b := by
  induction rows with
  | nil =>
    intro b _
    rfl
  | cons r rows ih =>
    intro b hs
    rw [List.foldl_cons, rowSettled_stable files b r (hs r (List.mem_cons_self _ _))]
    exact ih b (fun row hrow => hs row (List.mem_cons_of_mem _ hrow))

/-- C4 counterexample: a SOURCE entry whose label contains `;` defeats the
completion check, so a second `annotate` run on unchanged inputs appends the
same annotation again — for a region type that received a hit in the first
run. -/
theorem C4_counterexample_dirty_source :
    (annotate c4files [c4row] c4base).cols.lookup "rt" =
      some [("chr1_100_200", "a;b(0)")] ∧
    (annotate c4files [c4row] (annotate c4files [c4row] c4base)).cols.lookup "rt" =
      some [("chr1_100_200", "a;b(0);a;b(0)")] ∧
    ("a;b(0);a;b(0)" : String) ≠ "a;b(0)" :=
  ⟨rfl, rfl, by decide⟩

/-- C4 amended: when every SOURCE-mode entry's source label is clean (free of
`;` and `(`, and different from the `NA` sentinel) and the base table is
well-formed, a second `annotate` run over the same database and files leaves
the whole base table — every region type's column included — exactly as
after the first run. -/
theorem C4_amended_idempotent (files : String → List RefLine) (db : List DbRow)
    (b : BaseTable) (hdb : cleanDb db) (hwf : b.WF) :
    annotate files db (annotate files db b) = annotate files db b := by
  unfold annotate
  exact fold_settled_fixed files db _ (all_settled files db b hwf hdb)

/-- The witness for C4 at a concrete clean database: a SOURCE entry with a
hit, annotated twice, gives the same table. -/
theorem C4_amended_idempotent_witness :
    cleanDb [w4row] ∧ BaseTable.WF w4base ∧
    annotate w4files [w4row] (annotate w4files [w4row] w4base) =
      annotate w4files [w4row] w4base := by
  have hdb : cleanDb [w4row] := by
    intro r hr
    rw [List.mem_singleton] at hr
    subst hr
    intro _
    exact ⟨by decide, by decide, by decide⟩
  have hwf : BaseTable.WF w4base := by
    constructor
    · intro c hc
      have hc2 : c ∈ [("#chrom", [("chr1_100_200", "chr1")])] := hc
      rw [List.mem_singleton] at hc2
      subst hc2
      rfl
    · decide
  exact ⟨hdb, hwf, C4_amended_idempotent w4files [w4row] w4base hdb hwf⟩
